import Mathlib

/-!
Shallow embedding of the xhr-fetcher repository's data-source analysis
pipeline (src/filters.ts, src/schema-generator.ts, src/analyzer.ts and the
result construction in src/index.ts), together with theorems settling the
frozen claims about it.

Modelling conventions:
* JavaScript strings are modelled by Lean `String` (witnesses are ASCII, so
  UTF-16 length and code-point length agree).
* JavaScript numbers are modelled by `Rat`; `Number.isInteger v` becomes
  `v.den = 1`.  Non-integer number formatting in the stringifier is
  approximate (it is only ever used to search for the substring
  "__typename", which no number rendering can contain).
* A JavaScript value that may be `null`/`undefined` is an `Option`.
* Calls into code that is not part of this repository (the fast-xml-parser
  library, and the Function-constructor evaluation of page-supplied
  JavaScript in extractNuxtData) are modelled as explicit oracle
  parameters, so every theorem quantifies over their behaviour.
-/

namespace XhrFetcher

/-- JavaScript word character, as used by the regex word boundary: [A-Za-z0-9_]. -/
def isWordChar (c : Char) : Bool :=
  c.isAlpha || c.isDigit || c = '_'

/-- Lower-casing of a character list (ASCII, as produced by String.toLowerCase
on the inputs we model). -/
def lowerChars (l : List Char) : List Char :=
  l.map Char.toLower

/-- Does the pattern occur as a contiguous sublist?  Models
String.prototype.includes. -/
def occursIn (pat : List Char) : List Char → Bool
  | [] => pat.isEmpty
  | c :: rest => pat.isPrefixOf (c :: rest) || occursIn pat rest

/-- String.prototype.includes. -/
def strContains (s pat : String) : Bool :=
  occursIn pat.data s.data

/-- Is the list empty or starting with a non-word character?  This is the
regex word-boundary test for a position right after a word character. -/
def boundaryAt : List Char → Bool
  | [] => true
  | c :: _ => !isWordChar c

/-- Some occurrence of the pattern is followed by a word boundary (the
pattern is assumed to end in a word character).  Models a regex of the form
pat\b applied with test(). -/
def occursWithBreak (pat : List Char) : List Char → Bool
  | [] => false
  | c :: rest =>
    (pat.isPrefixOf (c :: rest) && boundaryAt ((c :: rest).drop pat.length))
      || occursWithBreak pat rest

/-- Some occurrence of the pattern is followed (with no intervening line
terminator, as regex `.` does not match them) by an occurrence of `later`.
Models a regex of the form pat.*later applied with test(). -/
def occursThenLater (pat later : List Char) : List Char → Bool
  | [] => false
  | c :: rest =>
    (pat.isPrefixOf (c :: rest)
        && occursIn later
          (((c :: rest).drop pat.length).takeWhile (fun d => d ≠ '\n' && d ≠ '\r')))
      || occursThenLater pat later rest

/-- Whitespace in the sense of JavaScript's \s class and of
String.prototype.trim (the characters occurring in the inputs we model). -/
def isJsSpaceChar (c : Char) : Bool :=
  c = ' ' || c = '\t' || c = '\n' || c = '\r' || c = '\x0c' || c = '\x0b'

/-- JavaScript String.prototype.trim, over the whitespace forms occurring
in the inputs we model. -/
def jsTrim (s : String) : String :=
  String.mk (((s.data.dropWhile isJsSpaceChar).reverse.dropWhile isJsSpaceChar).reverse)

/-- String.prototype.endsWith. -/
def strEndsWith (s suf : String) : Bool :=
  suf.data.isSuffixOf s.data

/-- A JSON value, the model of the `unknown` values produced by JSON.parse
in the source. `null` models the JavaScript null. -/
inductive JValue : Type where
  | null : JValue
  | bool (b : Bool) : JValue
  | num (q : Rat) : JValue
  | str (s : String) : JValue
  | arr (items : List JValue) : JValue
  | obj (fields : List (String × JValue)) : JValue
deriving Repr

/-- Is this the JavaScript null value (the test `data === null` on a parsed
value). -/
def JValue.isNull : JValue → Bool
  | .null => true
  | _ => false

/-- JavaScript truthiness of a parsed value (the `if (nextData)` style
checks in the source). -/
def truthy : JValue → Bool
  | .null => false
  | .bool b => b
  | .num q => !(q = 0)
  | .str s => !(s = "")
  | .arr _ => true
  | .obj _ => true

/-- JavaScript property access `v?.key`: a lookup that yields undefined on
anything but an object with that key. -/
def jsGet : JValue → String → Option JValue
  | .obj fs, k => (fs.find? (fun p => p.1 = k)).map (fun p => p.2)
  | _, _ => none

/-- Object.keys(v).length for the values reachable in the source: keys of an
object, indices of an array or a string, nothing for primitives. -/
def jsKeysLength : JValue → Nat
  | .obj fs => fs.length
  | .arr l => l.length
  | .str s => s.length
  | _ => 0

/-! JSON.parse, modelled as a strict JSON recursive-descent parser.  Failure
(an exception in JavaScript) is `none`. -/

/-- Skip JSON whitespace (space, tab, line feed, carriage return). -/
def skipWs : List Char → List Char
  | c :: rest =>
    if c = ' ' || c = '\t' || c = '\n' || c = '\r' then skipWs rest else c :: rest
  | [] => []

/-- Value of a hexadecimal digit (codes 48-57 are the decimal digits,
97-102 lower-case a-f, 65-70 upper-case A-F). -/
def hexVal (c : Char) : Option Nat :=
  let n := c.toNat
  if 48 ≤ n ∧ n ≤ 57 then some (n - 48)
  else if 97 ≤ n ∧ n ≤ 102 then some (n - 87)
  else if 65 ≤ n ∧ n ≤ 70 then some (n - 55)
  else none

/-- Body of a JSON string literal, after the opening quote; returns the
decoded characters and the rest of the input after the closing quote. -/
def parseStringBody (acc : List Char) : List Char → Option (List Char × List Char)
  | [] => none
  | '"' :: rest => some (acc.reverse, rest)
  | '\\' :: esc => match esc with
    | '"' :: rest => parseStringBody ('"' :: acc) rest
    | '\\' :: rest => parseStringBody ('\\' :: acc) rest
    | '/' :: rest => parseStringBody ('/' :: acc) rest
    | 'b' :: rest => parseStringBody ('\x08' :: acc) rest
    | 'f' :: rest => parseStringBody ('\x0c' :: acc) rest
    | 'n' :: rest => parseStringBody ('\n' :: acc) rest
    | 'r' :: rest => parseStringBody ('\r' :: acc) rest
    | 't' :: rest => parseStringBody ('\t' :: acc) rest
    | 'u' :: h1 :: h2 :: h3 :: h4 :: rest =>
      match hexVal h1, hexVal h2, hexVal h3, hexVal h4 with
      | some a, some b, some c, some d =>
        parseStringBody (Char.ofNat (((a * 16 + b) * 16 + c) * 16 + d) :: acc) rest
      | _, _, _, _ => none
    | _ => none
  | c :: rest =>
    if c.toNat < 0x20 then none else parseStringBody (c :: acc) rest

/-- Digits prefix of the input. -/
def takeDigits (l : List Char) : List Char × List Char :=
  (l.takeWhile Char.isDigit, l.dropWhile Char.isDigit)

/-- Natural number denoted by a digit list. -/
def digitsToNat (l : List Char) : Nat :=
  l.foldl (fun acc c => acc * 10 + (c.toNat - '0'.toNat)) 0

/-- A JSON number literal (strict grammar: optional minus, integer part
without leading zeros, optional fraction, optional exponent). -/
def parseNumber (l : List Char) : Option (Rat × List Char) :=
  let (neg, l1) := match l with
    | '-' :: rest => (true, rest)
    | _ => (false, l)
  let intPart : Option (List Char × List Char) := match l1 with
    | '0' :: rest => some (['0'], rest)
    | c :: _ =>
      if c.isDigit then
        let (ds, rest) := takeDigits l1
        some (ds, rest)
      else none
    | [] => none
  match intPart with
  | none => none
  | some (ids, l2) =>
    let fracPart : Option (List Char × List Char) := match l2 with
      | '.' :: rest =>
        let (ds, r2) := takeDigits rest
        if ds.isEmpty then none else some (ds, r2)
      | _ => some ([], l2)
    match fracPart with
    | none => none
    | some (fds, l3) =>
      let expPart : Option (Int × List Char) := match l3 with
        | 'e' :: rest | 'E' :: rest =>
          let (esign, r1) : Bool × List Char := match rest with
            | '-' :: r => (true, r)
            | '+' :: r => (false, r)
            | _ => (false, rest)
          let (eds, r2) := takeDigits r1
          if eds.isEmpty then none
          else some ((if esign then -(digitsToNat eds : Int) else (digitsToNat eds : Int)), r2)
        | _ => some (0, l3)
      match expPart with
      | none => none
      | some (e, l4) =>
        let mantInt : Int := (digitsToNat (ids ++ fds) : Int)
        let signedInt : Int := if neg then -mantInt else mantInt
        let e2 : Int := e - (fds.length : Int)
        let scaled : Rat :=
          if 0 ≤ e2 then ((signedInt * 10 ^ e2.toNat : Int) : Rat)
          else (signedInt : Rat) / (((10 : Int) ^ (-e2).toNat : Int) : Rat)
        some (scaled, l4)

/-- Replace the value of an existing key or append a new one: the effect of
a duplicate key in a JSON object (later value wins, original position kept). -/
def putField : List (String × JValue) → String → JValue → List (String × JValue)
  | [], k, v => [(k, v)]
  | (k0, v0) :: rest, k, v =>
    if k0 = k then (k0, v) :: rest else (k0, v0) :: putField rest k v

mutual

/-- A JSON value (fuel-indexed recursive descent; the top-level entry point
supplies more fuel than any input of that length can consume). -/
def parseVal : Nat → List Char → Option (JValue × List Char)
  | 0, _ => none
  | fuel + 1, s =>
    match skipWs s with
    | 'n' :: 'u' :: 'l' :: 'l' :: rest => some (.null, rest)
    | 't' :: 'r' :: 'u' :: 'e' :: rest => some (.bool true, rest)
    | 'f' :: 'a' :: 'l' :: 's' :: 'e' :: rest => some (.bool false, rest)
    | '"' :: rest =>
      (parseStringBody [] rest).map (fun p => (.str (String.mk p.1), p.2))
    | '[' :: rest =>
      (match skipWs rest with
       | ']' :: r2 => some (.arr [], r2)
       | r2 => parseArrRest fuel r2 [])
    | '\x7b' :: rest =>
      (match skipWs rest with
       | '\x7d' :: r2 => some (.obj [], r2)
       | r2 => parseObjRest fuel r2 [])
    | rest => (parseNumber rest).map (fun p => (.num p.1, p.2))

/-- Elements of a non-empty JSON array, positioned at the start of a value. -/
def parseArrRest : Nat → List Char → List JValue → Option (JValue × List Char)
  | 0, _, _ => none
  | fuel + 1, s, acc =>
    match parseVal fuel s with
    | none => none
    | some (v, rest) =>
      match skipWs rest with
      | ',' :: r2 => parseArrRest fuel r2 (acc ++ [v])
      | ']' :: r2 => some (.arr (acc ++ [v]), r2)
      | _ => none

/-- Members of a non-empty JSON object, positioned at the start of a key. -/
def parseObjRest : Nat → List Char → List (String × JValue) → Option (JValue × List Char)
  | 0, _, _ => none
  | fuel + 1, s, acc =>
    match s with
    | '"' :: rest =>
      match parseStringBody [] rest with
      | none => none
      | some (kchars, r1) =>
        match skipWs r1 with
        | ':' :: r2 =>
          match parseVal fuel r2 with
          | none => none
          | some (v, r3) =>
            let acc2 := putField acc (String.mk kchars) v
            match skipWs r3 with
            | ',' :: r4 => parseObjRest fuel (skipWs r4) acc2
            | '\x7d' :: r4 => some (.obj acc2, r4)
            | _ => none
        | _ => none
    | _ => none

end

/-- JSON.parse wrapped in try/catch: the safeJsonParse helper of
schema-generator.ts.  `none` models the JavaScript null returned on a parse
failure. -/
def jsonParse (s : String) : Option JValue :=
  match parseVal (2 * s.length + 4) s.data with
  | some (v, rest) => if (skipWs rest).isEmpty then some v else none
  | none => none

/-- safeJsonParse from schema-generator.ts. -/
def safeJsonParse (s : String) : Option JValue :=
  jsonParse s

/-- Hexadecimal digit character (code 48 starts the decimal digits, code 87
+ 10 starts the lower-case letters). -/
def hexDigit (n : Nat) : Char :=
  Char.ofNat (if n < 10 then 48 + n else 87 + n)

/-- JSON.stringify escaping of one string character. -/
def escChar (c : Char) : List Char :=
  if c = '"' then ['\\', '"']
  else if c = '\\' then ['\\', '\\']
  else if c = '\x08' then ['\\', 'b']
  else if c = '\t' then ['\\', 't']
  else if c = '\n' then ['\\', 'n']
  else if c = '\x0c' then ['\\', 'f']
  else if c = '\r' then ['\\', 'r']
  else if c.toNat < 0x20 then
    ['\\', 'u', '0', '0', hexDigit (c.toNat / 16), hexDigit (c.toNat % 16)]
  else [c]

/-- JSON.stringify rendering of a string literal. -/
def quoteStr (s : String) : String :=
  String.mk ('"' :: (s.data.foldr (fun c acc => escChar c ++ acc) ['"']))

/-- Rendering of a number.  Integers render as in JavaScript; the rendering
of non-integral rationals is approximate (see the module comment). -/
def renderNum (q : Rat) : String :=
  if q.den = 1 then toString q.num
  else toString q.num ++ "/" ++ toString q.den

mutual

/-- JSON.stringify of a parsed value (only used in the source to search the
serialization for the substring "__typename"). -/
def jsStringify : JValue → String
  | .null => "null"
  | .bool b => if b then "true" else "false"
  | .num q => renderNum q
  | .str s => quoteStr s
  | .arr l => "[" ++ stringifyElems l ++ "]"
  | .obj fs => "\x7b" ++ stringifyFields fs ++ "\x7d"

/-- Comma-separated serialization of array elements. -/
def stringifyElems : List JValue → String
  | [] => ""
  | [v] => jsStringify v
  | v :: rest => jsStringify v ++ "," ++ stringifyElems rest

/-- Comma-separated serialization of object members. -/
def stringifyFields : List (String × JValue) → String
  | [] => ""
  | [(k, v)] => quoteStr k ++ ":" ++ jsStringify v
  | (k, v) :: rest => quoteStr k ++ ":" ++ jsStringify v ++ "," ++ stringifyFields rest

end

/-! URL parsing.  `new URL(url)` is modelled for http(s) URLs: scheme,
authority (user info and port stripped), pathname and search.  Any other
input models the constructor throwing, i.e. yields none. -/

/-- The parts of a parsed URL that filters.ts consumes. -/
structure URLParts : Type where
  hostname : String
  pathname : String
  search : String
deriving Repr

/-- Drop the user-info prefix of an authority (everything up to the last
at-sign). -/
def dropUserInfo (auth : List Char) : List Char :=
  if auth.contains '@' then
    (auth.reverse.takeWhile (fun c => c ≠ '@')).reverse
  else auth

/-- Model of the WHATWG URL constructor, restricted to the http(s) URLs the
analysis deals with; none models a thrown TypeError. -/
def parseURL (url : String) : Option URLParts :=
  let l := url.data
  let low := lowerChars l
  let afterScheme : Option (List Char) :=
    if ("https://".data).isPrefixOf low then some (l.drop 8)
    else if ("http://".data).isPrefixOf low then some (l.drop 7)
    else none
  match afterScheme with
  | none => none
  | some rest =>
    let isAuthEnd : Char → Bool := fun c => c = '/' || c = '?' || c = '#'
    let auth := rest.takeWhile (fun c => !isAuthEnd c)
    let tail := rest.dropWhile (fun c => !isAuthEnd c)
    let hostport := dropUserInfo auth
    let host := hostport.takeWhile (fun c => c ≠ ':')
    if host.isEmpty then none
    else
      let pathChars := tail.takeWhile (fun c => c ≠ '?' && c ≠ '#')
      let afterPath := tail.dropWhile (fun c => c ≠ '?' && c ≠ '#')
      let path := if pathChars.isEmpty then "/" else String.mk pathChars
      let search := match afterPath with
        | '?' :: q =>
          let qchars := q.takeWhile (fun c => c ≠ '#')
          if qchars.isEmpty then "" else String.mk ('?' :: qchars)
        | _ => ""
      some ⟨String.mk (lowerChars host), path, search⟩

/-! filters.ts -/

/-- Analytics and tracking domain blocklist (ANALYTICS_DOMAINS). -/
def ANALYTICS_DOMAINS : List String :=
  ["google-analytics.com", "googletagmanager.com", "googlesyndication.com",
   "googleadservices.com", "doubleclick.net", "facebook.net",
   "facebook.com/tr", "connect.facebook.net", "analytics.facebook.com",
   "segment.io", "segment.com", "cdn.segment.com", "api.segment.io",
   "mixpanel.com", "hotjar.com", "hotjar.io", "clarity.ms", "newrelic.com",
   "nr-data.net", "sentry.io", "sentry-cdn.com", "fullstory.com",
   "amplitude.com", "heapanalytics.com", "heap-api.com", "optimizely.com",
   "cdn.optimizely.com", "intercom.io", "intercomcdn.com", "crisp.chat",
   "drift.com", "hubspot.com", "hs-analytics.net", "hsforms.com",
   "mxpnl.com", "branch.io", "app.link", "appsflyer.com", "adjust.com",
   "kochava.com", "bugsnag.com", "logrocket.com", "logrocket.io",
   "smartlook.com", "mouseflow.com", "luckyorange.com", "crazyegg.com",
   "clicktale.net", "quantserve.com", "scorecardresearch.com",
   "chartbeat.com", "parsely.com", "pingdom.net", "speedcurve.com",
   "datadoghq.com", "rum.browser-intake-datadoghq.com",
   "browser-intake-datadoghq.com", "onesignal.com", "pusher.com",
   "pubnub.com", "adsrvr.org", "adroll.com", "taboola.com", "outbrain.com",
   "criteo.com", "criteo.net", "amazon-adsystem.com", "ads-twitter.com",
   "ads.linkedin.com", "snap.licdn.com", "px.ads.linkedin.com",
   "bat.bing.com", "clarity.ms", "mc.yandex.ru", "top-fwz1.mail.ru",
   "vk.com/rtrg", "tiktok.com/i18n/pixel", "analytics.tiktok.com"]

/-- isAnalyticsDomain from filters.ts: the URL's hostname (lower-cased)
equals a blocklist entry or ends in "." followed by one. -/
def isAnalyticsDomain (url : String) : Bool :=
  match parseURL url with
  | none => false
  | some u =>
    let hostname := String.mk (lowerChars u.hostname.data)
    ANALYTICS_DOMAINS.any (fun domain =>
      hostname = domain || strEndsWith hostname ("." ++ domain))

/-- The ANALYTICS_PATH_PATTERNS test from filters.ts: each case-insensitive
regular expression is transcribed as a substring / word-boundary test on the
lower-cased path+query. -/
def matchesAnalyticsPatterns (pathAndQuery : String) : Bool :=
  let pq := lowerChars pathAndQuery.data
  let wordPat := fun (p : String) => occursWithBreak p.data pq
  let subPat := fun (p : String) => occursIn p.data pq
  wordPat "/collect" || wordPat "/track" || wordPat "/beacon" ||
  wordPat "/pixel" || wordPat "/analytics" || subPat "/__analytics" ||
  wordPat "/log" || wordPat "/telemetry" || wordPat "/metrics" ||
  (wordPat "/events" || wordPat "/event") || wordPat "/ping" ||
  wordPat "/heartbeat" || wordPat "/v1/batch" || wordPat "/v1/t" ||
  wordPat "/v1/p" || wordPat "/v1/i" || wordPat "/r/collect" ||
  wordPat "/j/collect" || wordPat "/g/collect" || wordPat "/mp/collect" ||
  subPat ".gif?" || occursThenLater ".png?".data "utm".data pq ||
  subPat "/tr?" || subPat "/xd_arbiter" || subPat "/sdk.js" ||
  subPat "/gtag/" || subPat "/gtm/"

/-- isAnalyticsPath from filters.ts. -/
def isAnalyticsPath (url : String) : Bool :=
  match parseURL url with
  | none => false
  | some u => matchesAnalyticsPatterns (u.pathname ++ u.search)

/-- The acknowledgement-token alternatives of the final regex in
isTrivialPayload, lower-cased. -/
def trivialAckTokens : List String :=
  ["ok", "success", "1", "true", "\"ok\"", "\"success\""]

/-- isTrivialPayload from filters.ts.  The argument is the optional
response body; none and the empty string are both falsy in the `!body`
guard. -/
def isTrivialPayload (body : Option String) : Bool :=
  match body with
  | none => true
  | some b =>
    if b = "" then true
    else if b.length < 50 then true
    else
      let trimmed := jsTrim b
      if trimmed = "" || trimmed = "\x7b\x7d" || trimmed = "[]" || trimmed = "null" then
        true
      else if trivialAckTokens.contains (String.mk (lowerChars trimmed.data)) then
        true
      else false

/-- isAnalyticsRequest from filters.ts. -/
def isAnalyticsRequest (url : String) : Bool :=
  isAnalyticsDomain url || isAnalyticsPath url

/-- Resource types that are never core data (EXCLUDED_RESOURCE_TYPES). -/
def EXCLUDED_RESOURCE_TYPES : List String :=
  ["image", "media", "font", "stylesheet", "manifest", "preflight"]

/-- isCoreDataRequest from filters.ts. -/
def isCoreDataRequest (url : String) (contentType : String)
    (resourceType : String) (body : Option String) : Bool :=
  if EXCLUDED_RESOURCE_TYPES.contains resourceType then false
  else if resourceType ≠ "xhr" && resourceType ≠ "fetch" then false
  else if isAnalyticsRequest url then false
  else
    let ct := String.mk (lowerChars contentType.data)
    let isDataContentType :=
      strContains ct "json" || strContains ct "xml" || strContains ct "html" ||
        strContains ct "text/plain"
    if !isDataContentType then false
    else if isTrivialPayload body then false
    else true

/-- The coarse content categories of getContentCategory. -/
inductive ContentCategory : Type where
  | json | xml | html | text | unknown
deriving DecidableEq, Repr

/-- getContentCategory from filters.ts: first substring match wins, in the
order json, xml, html, text. -/
def getContentCategory (contentType : String) : ContentCategory :=
  let ct := String.mk (lowerChars contentType.data)
  if strContains ct "json" then .json
  else if strContains ct "xml" then .xml
  else if strContains ct "html" then .html
  else if strContains ct "text" then .text
  else .unknown

/-! schema-generator.ts -/

/-- The JSONSchema type field: a single type name or an array of names. -/
inductive SchemaType : Type where
  | one (t : String)
  | many (ts : List String)
deriving DecidableEq, Repr

/-- The JSONSchema interface of schema-generator.ts (type, properties,
items, required, additionalProperties, examples, oneOf; absent fields are
none). -/
inductive JSONSchema : Type where
  | mk (type : Option SchemaType)
       (properties : Option (List (String × JSONSchema)))
       (items : Option JSONSchema)
       (required : Option (List String))
       (additionalProperties : Option Bool)
       (examples : Option (List JValue))
       (oneOf : Option (List JSONSchema))

/-- The type field. -/
def JSONSchema.type : JSONSchema → Option SchemaType
  | .mk t _ _ _ _ _ _ => t

/-- The properties field. -/
def JSONSchema.properties : JSONSchema → Option (List (String × JSONSchema))
  | .mk _ p _ _ _ _ _ => p

/-- The items field. -/
def JSONSchema.items : JSONSchema → Option JSONSchema
  | .mk _ _ i _ _ _ _ => i

/-- The required field. -/
def JSONSchema.required : JSONSchema → Option (List String)
  | .mk _ _ _ r _ _ _ => r

/-- The additionalProperties field. -/
def JSONSchema.additionalProperties : JSONSchema → Option Bool
  | .mk _ _ _ _ a _ _ => a

/-- The examples field. -/
def JSONSchema.examples : JSONSchema → Option (List JValue)
  | .mk _ _ _ _ _ e _ => e

/-- The oneOf field. -/
def JSONSchema.oneOf : JSONSchema → Option (List JSONSchema)
  | .mk _ _ _ _ _ _ o => o

/-- The empty schema object, written as a bare pair of braces in the source. -/
def emptySchema : JSONSchema :=
  .mk none none none none none none none

/-- getType from schema-generator.ts as the type name it returns. -/
def getType : JValue → String
  | .null => "null"
  | .arr _ => "array"
  | .num q => if q.den = 1 then "integer" else "number"
  | .str _ => "string"
  | .bool _ => "boolean"
  | .obj _ => "object"

/-- JavaScript strict equality on the type fields compared at the top of
mergeSchemas.  Two absent fields are equal, two equal strings are equal; an
array-valued type field compares by reference, and the distinct schema
objects merged here never alias, so that case is unequal. -/
def typeFieldEq : Option SchemaType → Option SchemaType → Bool
  | none, none => true
  | some (.one s), some (.one t) => s = t
  | _, _ => false

/-- The type-name list the addSchema closure in mergeSchemas derives from a
branch: the array as is, the single name, or "unknown" for an absent field. -/
def typeNamesOf (s : JSONSchema) : List String :=
  match s.type with
  | some (.one t) => [t]
  | some (.many ts) => ts
  | none => ["unknown"]

/-- One addSchema step of mergeSchemas: every type name of the branch that
is not yet present adds the name and pushes the branch. -/
def addSchemaStep (st : List String × List JSONSchema) (s : JSONSchema) :
    List String × List JSONSchema :=
  (typeNamesOf s).foldl
    (fun acc t => if acc.1.contains t then acc else (acc.1 ++ [t], acc.2 ++ [s]))
    st

/-- Property lookup in a property list (the mergedProps[key] access). -/
def lookupProp : List (String × JSONSchema) → String → Option JSONSchema
  | [], _ => none
  | (k0, s) :: rest, k => if k0 = k then some s else lookupProp rest k

theorem lookupProp_sizeOf {ps : List (String × JSONSchema)} {k : String}
    {s : JSONSchema} (h : lookupProp ps k = some s) : sizeOf s < sizeOf ps := by
  induction ps with
  | nil => simp [lookupProp] at h
  | cons p rest ih =>
    obtain ⟨k0, s0⟩ := p
    simp only [lookupProp] at h
    split at h
    · cases h
      simp only [List.cons.sizeOf_spec, Prod.mk.sizeOf_spec]
      omega
    · have := ih h
      simp only [List.cons.sizeOf_spec]
      omega

theorem propertiesField_sizeOf {a : JSONSchema}
    {ap : List (String × JSONSchema)} (h : a.properties = some ap) :
    sizeOf ap < sizeOf a := by
  cases a with
  | mk t p i r ad e o =>
    simp only [JSONSchema.properties] at h
    subst h
    simp only [JSONSchema.mk.sizeOf_spec, Option.some.sizeOf_spec]
    omega

mutual

/-- mergeSchemas from schema-generator.ts. -/
def mergeSchemas (a b : JSONSchema) : JSONSchema :=
  if typeFieldEq a.type b.type then
    if a.type = some (.one "object") then
      match ha : a.properties, hb : b.properties with
      | some ap, some bp =>
        .mk (some (.one "object"))
            (some (mergeInto ap bp ++ bp.filter (fun p => (lookupProp ap p.1).isNone)))
            none none (some true) none none
      | _, _ => a
    else a
  else
    let st1 : List String × List JSONSchema :=
      match a.oneOf with
      | some l => l.foldl addSchemaStep ([], [])
      | none => addSchemaStep ([], []) a
    let st2 : List String × List JSONSchema :=
      match b.oneOf with
      | some l => l.foldl addSchemaStep st1
      | none => addSchemaStep st1 b
    match st2.2 with
    | [s] => s
    | l => .mk none none none none none none (some l)
termination_by sizeOf a + sizeOf b
decreasing_by
  all_goals simp_wf
  have h1 := propertiesField_sizeOf ha
  have h2 := propertiesField_sizeOf hb
  omega

/-- The update loop of mergeSchemas over the spread copy of a's properties:
a's entries in order, each merged with b's entry of the same key when one
exists.  (b's keys are unique, as they come from a JavaScript object; the
entries of b with fresh keys are appended by the caller.) -/
def mergeInto : List (String × JSONSchema) → List (String × JSONSchema) →
    List (String × JSONSchema)
  | [], _ => []
  | (k, sa) :: rest, bp =>
    (match hl : lookupProp bp k with
     | some sb => (k, mergeSchemas sa sb)
     | none => (k, sa)) :: mergeInto rest bp
termination_by ap bp => sizeOf ap + sizeOf bp
decreasing_by
  · have h1 := lookupProp_sizeOf hl
    simp only [List.cons.sizeOf_spec, Prod.mk.sizeOf_spec]
    omega
  · simp only [List.cons.sizeOf_spec]
    omega

end

mutual

/-- inferJsonSchema from schema-generator.ts (the source's default
arguments maxExamples = 3 and maxDepth = 10 are passed explicitly at call
sites). -/
def inferJsonSchema (value : JValue) (maxExamples maxDepth : Nat) : JSONSchema :=
    if maxDepth = 0 then
      .mk (some (.one "object")) none none none (some true) none none
    else
      match value with
      | .null => .mk (some (.one "null")) none none none none none none
      | .str s =>
        let ex := if s.length > 100 then String.mk (s.data.take 100) ++ "..." else s
        .mk (some (.one "string")) none none none none (some [.str ex]) none
      | .num q =>
        .mk (some (.one (if q.den = 1 then "integer" else "number")))
          none none none none (some [.num q]) none
      | .bool b =>
        .mk (some (.one "boolean")) none none none none (some [.bool b]) none
      | .arr l =>
        if l.isEmpty then
          .mk (some (.one "array")) none (some emptySchema) none none none none
        else
          let itemSchema := inferItems maxExamples l maxExamples (maxDepth - 1) none
          .mk (some (.one "array")) none (some (itemSchema.getD emptySchema))
            none none none none
      | .obj fs =>
        let props := inferProps fs maxExamples (maxDepth - 1)
        let required := (fs.filter (fun p => !p.2.isNull)).map (fun p => p.1)
        .mk (some (.one "object")) (some props) none
          (if required.isEmpty then none else some required) (some true) none none

/-- The loop of the array branch of inferJsonSchema: infer a schema for each
of the first maxExamples items and pairwise-merge them (none is the initial
null accumulator). -/
def inferItems : Nat → List JValue → Nat → Nat → Option JSONSchema → Option JSONSchema
  | _, [], _, _, acc => acc
  | 0, _, _, _, acc => acc
  | n + 1, v :: rest, me, md, acc =>
    let s := inferJsonSchema v me md
    inferItems n rest me md
      (some (match acc with
             | none => s
             | some a => mergeSchemas a s))

/-- The loop of the object branch of inferJsonSchema: per-key inferred
schemas, one level shallower. -/
def inferProps : List (String × JValue) → Nat → Nat → List (String × JSONSchema)
  | [], _, _ => []
  | (k, v) :: rest, me, md => (k, inferJsonSchema v me md) :: inferProps rest me md

end

mutual

/-- createSample from schema-generator.ts (default arguments
maxArrayItems = 2 and maxStringLength = 200 passed explicitly at call
sites). -/
def createSample : JValue → Nat → Nat → JValue
  | .null, _, _ => .null
  | .str s, _, maxStringLength =>
    if s.length > maxStringLength then
      .str (String.mk (s.data.take maxStringLength) ++ "...")
    else .str s
  | .num q, _, _ => .num q
  | .bool b, _, _ => .bool b
  | .arr l, maxArrayItems, msl => .arr (sampleItems maxArrayItems l maxArrayItems msl)
  | .obj fs, mai, msl => .obj (sampleFields fs mai msl)

/-- The array branch of createSample: the first maxArrayItems elements,
each recursively capped. -/
def sampleItems : Nat → List JValue → Nat → Nat → List JValue
  | _, [], _, _ => []
  | 0, _, _, _ => []
  | n + 1, v :: rest, mai, msl => createSample v mai msl :: sampleItems n rest mai msl

/-- The object branch of createSample: values recursively capped, key for
key. -/
def sampleFields : List (String × JValue) → Nat → Nat → List (String × JValue)
  | [], _, _ => []
  | (k, v) :: rest, mai, msl => (k, createSample v mai msl) :: sampleFields rest mai msl

end

/-! Literal-pattern regex matching helpers for the fixed regular
expressions of analyzer.ts.  Each helper spells out the deterministic
matching behaviour of the concrete pattern it models. -/

/-- Case-insensitive literal match at the start of the input: the pattern
(given lower-case) matches a prefix of the input ignoring case; yields the
rest of the input. -/
def stripCI : List Char → List Char → Option (List Char)
  | [], s => some s
  | _ :: _, [] => none
  | p :: ps, c :: cs => if c.toLower = p then stripCI ps cs else none

/-- Greedy \s+ : at least one whitespace character, then skip the rest. -/
def wsPlus : List Char → Option (List Char)
  | c :: rest => if isJsSpaceChar c then some (rest.dropWhile isJsSpaceChar) else none
  | [] => none

/-- Greedy \s* . -/
def wsStar (s : List Char) : List Char :=
  s.dropWhile isJsSpaceChar

/-- The fragment [^>]*> : consume everything up to and including the next
greater-than sign; none when there is none. -/
def skipToGt : List Char → Option (List Char)
  | [] => none
  | c :: rest => if c = '>' then some rest else skipToGt rest

/-- Lazy capture up to the first case-insensitive occurrence of the pattern:
yields the characters before the occurrence and the input after it. -/
def takeUntilCI (pat : List Char) : List Char → Option (List Char × List Char)
  | [] => none
  | c :: rest =>
    match stripCI pat (c :: rest) with
    | some after => some ([], after)
    | none => (takeUntilCI pat rest).map (fun p => (c :: p.1, p.2))

theorem stripCI_length {pat s r : List Char} (h : stripCI pat s = some r) :
    r.length + pat.length = s.length := by
  induction pat generalizing s with
  | nil =>
    simp only [stripCI, Option.some.injEq] at h
    subst h
    simp
  | cons p ps ih =>
    cases s with
    | nil => simp [stripCI] at h
    | cons c cs =>
      simp only [stripCI] at h
      split at h
      · have := ih h
        simp only [List.length_cons]
        omega
      · cases h

theorem takeUntilCI_length {pat s : List Char} {p : List Char × List Char}
    (hpat : pat ≠ []) (h : takeUntilCI pat s = some p) : p.2.length < s.length := by
  induction s generalizing p with
  | nil => simp [takeUntilCI] at h
  | cons c cs ih =>
    simp only [takeUntilCI] at h
    cases hs : stripCI pat (c :: cs) with
    | some after =>
      rw [hs] at h
      simp only [Option.some.injEq] at h
      have hl := stripCI_length hs
      have hp : 0 < pat.length := List.length_pos.mpr hpat
      subst h
      simp only [List.length_cons] at hl ⊢
      omega
    | none =>
      rw [hs] at h
      simp only [Option.map_eq_some'] at h
      obtain ⟨q, hq, hqe⟩ := h
      have := ih hq
      subst hqe
      simp only [List.length_cons]
      omega

theorem skipToGt_length {s r : List Char} (h : skipToGt s = some r) :
    r.length < s.length := by
  induction s with
  | nil => simp [skipToGt] at h
  | cons c cs ih =>
    simp only [skipToGt] at h
    split at h
    · cases h; simp
    · have := ih h
      simp only [List.length_cons]
      omega

/-- Scan for the leftmost position at which the position matcher succeeds
(the regex engine's leftmost-match rule; none of the modelled patterns can
match the empty input). -/
def scanFor (matchAt : List Char → Option (List Char)) : List Char → Option (List Char)
  | [] => none
  | c :: rest =>
    match matchAt (c :: rest) with
    | some g => some g
    | none => scanFor matchAt rest

/-! analyzer.ts: embedded-data extraction -/

/-- Attempted match, at the current position, of the pattern
script-open-tag id="IDENT" [^>]*> capture-lazy </script> used by
extractNextData and the Nuxt 3 branch of extractNuxtData (all parts
case-insensitive); yields the capture group. -/
def scriptTagMatchAt (idLower : List Char) (s : List Char) : Option (List Char) :=
  (stripCI "<script".data s).bind fun r1 =>
  (wsPlus r1).bind fun r2 =>
  (stripCI ("id=\"".data ++ idLower ++ ['"']) r2).bind fun r3 =>
  (skipToGt r3).bind fun r4 =>
  (takeUntilCI "</script>".data r4).map (fun p => p.1)

/-- extractNextData from analyzer.ts: first match of the __NEXT_DATA__
script-tag pattern; a truthy (non-empty) capture group is parsed as JSON.
none models the JavaScript null result. -/
def extractNextData (html : String) : Option JValue :=
  match scanFor (scriptTagMatchAt "__next_data__".data) html.data with
  | some cap => if cap.isEmpty then none else safeJsonParse (String.mk cap)
  | none => none

/-- Lazy brace group of the Nuxt 2 patterns: the input is positioned right
after the opening brace, and the group closes at the first closing brace
whose tail satisfies the rest of the pattern; yields the group including
both braces. -/
def braceScan (tailOk : List Char → Bool) (acc : List Char) : List Char → Option (List Char)
  | [] => none
  | c :: rest =>
    if c = '\x7d' && tailOk rest then some (('\x7b' :: acc.reverse) ++ ['\x7d'])
    else braceScan tailOk (c :: acc) rest

/-- The tail of the Nuxt 2 window pattern after the captured group:
an optional semicolon, then \s*, then the closing script tag. -/
def nuxt2TailOk (s : List Char) : Bool :=
  let s1 := match s with
    | ';' :: r => r
    | _ => s
  (stripCI "</script>".data (wsStar s1)).isSome

/-- The tail of the alternative Nuxt 2 pattern after the captured group:
\s*, an optional semicolon, \s*, then the closing script tag. -/
def nuxtAltTailOk (s : List Char) : Bool :=
  let s1 := wsStar s
  let s2 := match s1 with
    | ';' :: r => r
    | _ => s1
  (stripCI "</script>".data (wsStar s2)).isSome

/-- Attempted match, at the current position, of
window.__NUXT__ \s* = \s* brace-group ;? \s* </script> . -/
def nuxt2MatchAt (s : List Char) : Option (List Char) :=
  (stripCI "window.__nuxt__".data s).bind fun r1 =>
  match wsStar r1 with
  | '=' :: r2 =>
    (match wsStar r2 with
     | '\x7b' :: r3 => braceScan nuxt2TailOk [] r3
     | _ => none)
  | _ => none

/-- Attempted match, at the current position, of the alternative pattern
__NUXT__ \s* = \s* brace-group \s* ;? \s* </script> . -/
def nuxtAltMatchAt (s : List Char) : Option (List Char) :=
  (stripCI "__nuxt__".data s).bind fun r1 =>
  match wsStar r1 with
  | '=' :: r2 =>
    (match wsStar r2 with
     | '\x7b' :: r3 => braceScan nuxtAltTailOk [] r3
     | _ => none)
  | _ => none

/-- The Nuxt 2 part of extractNuxtData: the captured object literal is
handed to the Function-constructor evaluation, modelled by the evalJs
oracle (none models both a thrown exception, caught and turned into null,
and a null result).  When the window pattern matches, its evaluation result
is returned without trying the alternative pattern, exactly as in the
source. -/
def extractNuxt2 (evalJs : String → Option JValue) (l : List Char) : Option JValue :=
  match scanFor nuxt2MatchAt l with
  | some grp => evalJs (String.mk grp)
  | none =>
    match scanFor nuxtAltMatchAt l with
    | some grp => evalJs (String.mk grp)
    | none => none

/-- extractNuxtData from analyzer.ts: the Nuxt 3 __NUXT_DATA__ script tag
first (a truthy capture is parsed as JSON and returned, even when the parse
fails), then the two legacy Nuxt 2 inline-script patterns. -/
def extractNuxtData (evalJs : String → Option JValue) (html : String) : Option JValue :=
  match scanFor (scriptTagMatchAt "__nuxt_data__".data) html.data with
  | some cap =>
    if cap.isEmpty then extractNuxt2 evalJs html.data
    else safeJsonParse (String.mk cap)
  | none => extractNuxt2 evalJs html.data

/-! analyzer.ts: HTML fragment processing -/

/-- Global removal of the non-overlapping lazy blocks of a
tag-open .. tag-close pattern (the script- and style-stripping replaces of
processHtmlFragment); both patterns are non-empty by construction. -/
def stripBlocks (o : Char) (os : List Char) (cl : Char) (cls : List Char)
    (s : List Char) : List Char :=
  match s with
  | [] => []
  | c :: rest =>
    match hs : stripCI (o :: os) (c :: rest) with
    | some after =>
      match ht : takeUntilCI (cl :: cls) after with
      | some p => stripBlocks o os cl cls p.2
      | none => c :: stripBlocks o os cl cls rest
    | none => c :: stripBlocks o os cl cls rest
termination_by s.length
decreasing_by
  · have h1 := stripCI_length hs
    have h2 := takeUntilCI_length (List.cons_ne_nil cl cls) ht
    simp only [List.length_cons] at h1 ⊢
    omega
  · simp
  · simp

/-- Global replacement of <[^>]+> by a space (the tag-stripping replace of
processHtmlFragment). -/
def stripTags : List Char → List Char
  | [] => []
  | ['<'] => ['<']
  | '<' :: d :: rest2 =>
    if d = '>' then '<' :: stripTags (d :: rest2)
    else
      match hg : skipToGt (d :: rest2) with
      | some after => ' ' :: stripTags after
      | none => '<' :: stripTags (d :: rest2)
  | c :: rest => c :: stripTags rest
termination_by s => s.length
decreasing_by
  · simp
  · have := skipToGt_length hg
    simp only [List.length_cons] at this ⊢
    omega
  · simp
  · simp

/-- Global replacement of \s+ by a single space (the whitespace collapse of
processHtmlFragment). -/
def collapseWsAux (prevSpace : Bool) : List Char → List Char
  | [] => []
  | c :: rest =>
    if isJsSpaceChar c then
      if prevSpace then collapseWsAux true rest
      else ' ' :: collapseWsAux true rest
    else c :: collapseWsAux false rest

/-- processHtmlFragment from analyzer.ts: (truncated raw html, truncated
tag-and-script-stripped collapsed text). -/
def processHtmlFragment (html : String) : String × String :=
  let noScript := stripBlocks '<' "script".data '<' "/script>".data html.data
  let noStyle := stripBlocks '<' "style".data '<' "/style>".data noScript
  let textContent := jsTrim (String.mk (collapseWsAux false (stripTags noStyle)))
  let htmlOut :=
    if html.length > 1000 then String.mk (html.data.take 1000) ++ "..." else html
  let textOut :=
    if textContent.length > 500 then String.mk (textContent.data.take 500) ++ "..."
    else textContent
  (htmlOut, textOut)

/-! analyzer.ts: data model and classification -/

/-- DataSourceCategory from analyzer.ts. -/
inductive DataSourceCategory : Type where
  | jsonApi | graphql | xmlApi | htmlApi | nextjsEmbedded | nuxtEmbedded | ssrOnly
deriving DecidableEq, Repr

/-- APICategory from analyzer.ts. -/
inductive APICategory : Type where
  | jsonApi | graphql | xmlApi | htmlApi
deriving DecidableEq, Repr

/-- The inclusion of APICategory into DataSourceCategory (in TypeScript the
former's strings are a subset of the latter's). -/
def APICategory.toDataSource : APICategory → DataSourceCategory
  | .jsonApi => .jsonApi
  | .graphql => .graphql
  | .xmlApi => .xmlApi
  | .htmlApi => .htmlApi

/-- The confidence levels. -/
inductive Confidence : Type where
  | high | medium | low
deriving DecidableEq, Repr

/-- The two embedded-data categories. -/
inductive EmbeddedCategory : Type where
  | nextjsEmbedded | nuxtEmbedded
deriving DecidableEq, Repr

/-- The inclusion of the embedded categories into DataSourceCategory. -/
def EmbeddedCategory.toDataSource : EmbeddedCategory → DataSourceCategory
  | .nextjsEmbedded => .nextjsEmbedded
  | .nuxtEmbedded => .nuxtEmbedded

/-- CapturedRequest from types.ts. -/
structure CapturedRequest : Type where
  url : String
  method : String
  headers : List (String × String)
  postData : Option String
  resourceType : String
  timestamp : Nat

/-- CapturedResponse from types.ts. -/
structure CapturedResponse : Type where
  url : String
  status : Nat
  statusText : String
  headers : List (String × String)
  body : Option String
  resourceType : String
  timestamp : Nat
  contentType : Option String
  size : Option Nat

/-- XHRCapture from types.ts: one request paired with at most one
response. -/
structure XHRCapture : Type where
  request : CapturedRequest
  response : Option CapturedResponse

/-- DetectedAPI from analyzer.ts. -/
structure DetectedAPI : Type where
  url : String
  method : String
  category : APICategory
  schema : JSONSchema
  sample : JValue
  responseHeaders : List (String × String)
  requestHeaders : List (String × String)
  postData : Option String

/-- EmbeddedData from analyzer.ts. -/
structure EmbeddedData : Type where
  category : EmbeddedCategory
  data : JValue
  schema : JSONSchema

/-- Key membership of a JavaScript object (the `in` operator on a parsed
JSON object). -/
def hasKey (fs : List (String × JValue)) (k : String) : Bool :=
  (fs.find? (fun p => p.1 = k)).isSome

/-- isGraphQLResponse from analyzer.ts: non-object values fail the first
typeof guard; objects are tested for a top-level data or errors key, then
the serialization of the value is searched for "__typename" (arrays pass
the typeof guard, have no such keys, and get the serialization test). -/
def isGraphQLResponse (data : JValue) : Bool :=
  match data with
  | .obj fs =>
    if hasKey fs "data" || hasKey fs "errors" then true
    else strContains (jsStringify (.obj fs)) "__typename"
  | .arr l => strContains (jsStringify (.arr l)) "__typename"
  | _ => false

/-- isGraphQLEndpoint from analyzer.ts. -/
def isGraphQLEndpoint (url : String) : Bool :=
  let lowerUrl := String.mk (lowerChars url.data)
  strContains lowerUrl "/graphql" || strContains lowerUrl "/gql"

/-- Construction of one DetectedAPI record in analyzeXHRRequests. -/
def mkDetectedAPI (request : CapturedRequest) (response : CapturedResponse)
    (data : JValue) (category : APICategory) : DetectedAPI :=
  ⟨request.url, request.method, category, inferJsonSchema data 3 10,
   createSample data 2 200, response.headers, request.headers, request.postData⟩

/-- The body of the loop of analyzeXHRRequests for one exchange: none
models a continue.  xmlToJson is the oracle for the external
fast-xml-parser conversion (none models both a parse exception and a null
result). -/
def analyzeOneXHR (xmlToJson : String → Option JValue) (xhr : XHRCapture) :
    Option DetectedAPI :=
  match xhr.response with
  | none => none
  | some response =>
    match response.body with
    | none => none
    | some body =>
      if body = "" then none
      else
        let contentType := response.contentType.getD ""
        let url := response.url
        if !isCoreDataRequest url contentType xhr.request.resourceType (some body) then
          none
        else
          match getContentCategory contentType with
          | .json =>
            (match safeJsonParse body with
             | none => none
             | some d =>
               if d.isNull then none
               else
                 let apiCategory :=
                   if isGraphQLEndpoint url || isGraphQLResponse d then
                     APICategory.graphql
                   else APICategory.jsonApi
                 some (mkDetectedAPI xhr.request response d apiCategory))
          | .xml =>
            (match xmlToJson body with
             | none => none
             | some d =>
               if d.isNull then none
               else some (mkDetectedAPI xhr.request response d .xmlApi))
          | .html =>
            let p := processHtmlFragment body
            some (mkDetectedAPI xhr.request response
              (.obj [("html", .str p.1), ("textContent", .str p.2)]) .htmlApi)
          | _ => none

/-- analyzeXHRRequests from analyzer.ts. -/
def analyzeXHRRequests (xmlToJson : String → Option JValue) :
    List XHRCapture → List DetectedAPI
  | [] => []
  | xhr :: rest =>
    match analyzeOneXHR xmlToJson xhr with
    | some api => api :: analyzeXHRRequests xmlToJson rest
    | none => analyzeXHRRequests xmlToJson rest

/-- The pageProps test of determinePrimarySource: data?.props?.pageProps is
truthy and Object.keys of it is non-empty. -/
def nextDataHasPageProps (data : JValue) : Bool :=
  match jsGet data "props" with
  | some props =>
    (match jsGet props "pageProps" with
     | some pp => truthy pp && decide (0 < jsKeysLength pp)
     | none => false)
  | none => false

/-- The per-category tally of determinePrimarySource (counts[api.category]
incremented over the list). -/
def countCat (c : APICategory) (apis : List DetectedAPI) : Nat :=
  (apis.filter (fun a => a.category = c)).length

/-- The dominant-type loop of determinePrimarySource: fold over
Object.entries of the counts record in its insertion order, keeping the
first entry with a strictly greater count (maxType starts at json-api,
maxCount at 0). -/
def maxLoop (l : List (APICategory × Nat)) : APICategory × Nat :=
  l.foldl (fun acc p => if acc.2 < p.2 then p else acc) (APICategory.jsonApi, 0)

/-- The first guard of determinePrimarySource: embedded Next.js data whose
pageProps test passes (embeddedData?.category === that framework and the
pageProps chain is non-empty). -/
def nextGuard (embeddedData : Option EmbeddedData) : Bool :=
  match embeddedData with
  | some e =>
    decide (e.category = EmbeddedCategory.nextjsEmbedded) && nextDataHasPageProps e.data
  | none => false

/-- The second guard of determinePrimarySource: embedded Nuxt data. -/
def nuxtGuard (embeddedData : Option EmbeddedData) : Bool :=
  match embeddedData with
  | some e => decide (e.category = EmbeddedCategory.nuxtEmbedded)
  | none => false

/-- determinePrimarySource from analyzer.ts. -/
def determinePrimarySource (apis : List DetectedAPI)
    (embeddedData : Option EmbeddedData) : DataSourceCategory × Confidence :=
  if nextGuard embeddedData then
    (.nextjsEmbedded, .high)
  else if nuxtGuard embeddedData then
    (.nuxtEmbedded, .high)
  else
    let countJson := countCat .jsonApi apis
    let countGraphql := countCat .graphql apis
    let countXml := countCat .xmlApi apis
    let countHtml := countCat .htmlApi apis
    let total := apis.length
    if total = 0 then
      match embeddedData with
      | some e => (e.category.toDataSource, .medium)
      | none => (.ssrOnly, .medium)
    else if 0 < countGraphql then
      (.graphql, if 1 < countGraphql then .high else .medium)
    else
      let m := maxLoop [(.jsonApi, countJson), (.graphql, countGraphql),
                        (.xmlApi, countXml), (.htmlApi, countHtml)]
      (m.1.toDataSource, if 3 ≤ m.2 then .high else if 1 ≤ m.2 then .medium else .low)

/-- The return value of analyzePageData. -/
structure AnalysisOutcome : Type where
  detectedAPIs : List DetectedAPI
  embeddedData : Option EmbeddedData
  primaryDataSource : DataSourceCategory
  confidence : Confidence
  includeHtml : Bool

/-- analyzePageData from analyzer.ts (the title parameter is accepted and
unused, as in the source).  evalJs and xmlToJson are the oracles for the
two external behaviours (Function-constructor evaluation and
fast-xml-parser). -/
def analyzePageData (evalJs xmlToJson : String → Option JValue) (html : String)
    (xhrRequests : List XHRCapture) (_title : Option String) : AnalysisOutcome :=
  let embeddedNext : Option EmbeddedData :=
    match extractNextData html with
    | some v =>
      if truthy v then some ⟨.nextjsEmbedded, v, inferJsonSchema v 3 10⟩ else none
    | none => none
  let embeddedData : Option EmbeddedData :=
    match embeddedNext with
    | some e => some e
    | none =>
      match extractNuxtData evalJs html with
      | some v =>
        if truthy v then some ⟨.nuxtEmbedded, v, inferJsonSchema v 3 10⟩ else none
      | none => none
  let detectedAPIs := analyzeXHRRequests xmlToJson xhrRequests
  let pc := determinePrimarySource detectedAPIs embeddedData
  ⟨detectedAPIs, embeddedData, pc.1, pc.2, decide (pc.1 = DataSourceCategory.ssrOnly)⟩

/-! index.ts: the analysis-derived fields of the AnalyzeResult constructed
by the /analyze handlers. -/

/-- The analysis-derived fields of the AnalyzeResult object built by the
/analyze handlers of index.ts. -/
structure AnalyzeResponsePayload : Type where
  primaryDataSource : DataSourceCategory
  confidence : Confidence
  detectedAPIs : List DetectedAPI
  embeddedData : Option EmbeddedData
  html : Option String
  title : Option String

/-- The AnalyzeResult construction of the /analyze handlers in index.ts:
html is included only when analysis.includeHtml (primary source is
ssr-only), while title is copied from the fetch result unconditionally. -/
def buildAnalyzeResult (evalJs xmlToJson : String → Option JValue)
    (fetchHtml : String) (xhrRequests : List XHRCapture)
    (fetchTitle : Option String) : AnalyzeResponsePayload :=
  let analysis := analyzePageData evalJs xmlToJson fetchHtml xhrRequests fetchTitle
  ⟨analysis.primaryDataSource, analysis.confidence, analysis.detectedAPIs,
   analysis.embeddedData,
   if analysis.includeHtml then some fetchHtml else none,
   fetchTitle⟩

/-! Shared helper lemmas about the filter pipeline. -/

theorem isCoreDataRequest_false_of_trivial (url contentType resourceType : String)
    (body : Option String) (h : isTrivialPayload body = true) :
    isCoreDataRequest url contentType resourceType body = false := by
  unfold isCoreDataRequest
  split_ifs <;> simp_all

theorem isCoreDataRequest_false_of_analyticsDomain (url contentType resourceType : String)
    (body : Option String) (h : isAnalyticsDomain url = true) :
    isCoreDataRequest url contentType resourceType body = false := by
  unfold isCoreDataRequest isAnalyticsRequest
  split_ifs <;> simp_all

/-! Concrete inputs used by several witnesses. -/

/-- A page whose HTML carries Next.js embedded data with a non-empty
pageProps object. -/
def nextDataHtml : String :=
  "<html><head><script id=\"__NEXT_DATA__\" type=\"application/json\">\x7b\"props\":\x7b\"pageProps\":\x7b\"id\":1\x7d\x7d\x7d</script></head></html>"

/-- A 61-character JSON response body that passes the triviality filter. -/
def widgetLongBody : String :=
  "\x7b\"id\":1,\"name\":\"Widget\",\"description\":\"Blue widget, size 42\"\x7d"

/-- A detected-API record varying only in its category, for exercising
determinePrimarySource. -/
def sampleApi (c : APICategory) : DetectedAPI :=
  ⟨"https://api.example.com/items", "GET", c, emptySchema, .null, [], [], none⟩

/-! Claim C1. -/

/-- C1 (code bug): the claim says the rendered HTML and the page title are
included in the AnalysisResult only when the resolved primary source is
ssr-only.  The html field does follow that rule, but the /analyze handlers
of index.ts copy the title into the result unconditionally: on a page whose
primary source resolves to nextjs-embedded, the result still carries the
title, contradicting the claim and the comment on the html/title fields of
the AnalyzeResult interface in analyzer.ts. -/
theorem c1_title_included_when_not_ssr_only :
    (buildAnalyzeResult (fun _ => none) (fun _ => none) nextDataHtml []
        (some "Example Page")).primaryDataSource = DataSourceCategory.nextjsEmbedded ∧
    (buildAnalyzeResult (fun _ => none) (fun _ => none) nextDataHtml []
        (some "Example Page")).title = some "Example Page" ∧
    (buildAnalyzeResult (fun _ => none) (fun _ => none) nextDataHtml []
        (some "Example Page")).html = none := by
  refine ⟨by rfl, by rfl, by rfl⟩

/-! Claim C2. -/

/-- C2 counterexample: the claim says the exchange with response body
'\x7b"id":1,"name":"Widget"\x7d' is not judged trivial; but that body is 24
characters long, below the 50-character floor of isTrivialPayload, so the
code judges it trivial. -/
theorem c2_widget_body_judged_trivial :
    isTrivialPayload (some "\x7b\"id\":1,\"name\":\"Widget\"\x7d") = true := by
  rfl

/-- C2 amended: a response body of exactly '\x7b\x7d' is judged trivial and
excluded from core-data consideration whatever the other exchange fields
are; the 24-character body '\x7b"id":1,"name":"Widget"\x7d' is also judged
trivial (it is shorter than 50 characters); a widened body of the same
shape that reaches 50 characters is not judged trivial and is not excluded
on triviality grounds. -/
theorem c2_trivial_payload_amended :
    (∀ url contentType resourceType : String,
      isCoreDataRequest url contentType resourceType (some "\x7b\x7d") = false) ∧
    isTrivialPayload (some "\x7b\"id\":1,\"name\":\"Widget\"\x7d") = true ∧
    isTrivialPayload (some widgetLongBody) = false ∧
    isCoreDataRequest "https://api.example.com/items" "application/json" "xhr"
      (some widgetLongBody) = true := by
  refine ⟨fun url ct rt => isCoreDataRequest_false_of_trivial url ct rt _ (by rfl),
    by rfl, by rfl, by rfl⟩

/-! Claim C6. -/

/-- C6: an exchange whose URL's hostname exactly equals, or is a subdomain
of, an entry of the fixed analytics domain list (compared case-insensitively)
is excluded from core-data consideration by isCoreDataRequest, regardless of
its content type, resource type and response body. -/
theorem c6_analytics_domain_always_excluded
    (url contentType resourceType : String) (body : Option String) (parts : URLParts)
    (hparse : parseURL url = some parts)
    (hmatch : ANALYTICS_DOMAINS.any (fun domain =>
        String.mk (lowerChars parts.hostname.data) = domain ||
        strEndsWith (String.mk (lowerChars parts.hostname.data)) ("." ++ domain)) = true) :
    isCoreDataRequest url contentType resourceType body = false := by
  apply isCoreDataRequest_false_of_analyticsDomain
  unfold isAnalyticsDomain
  rw [hparse]
  exact hmatch

/-- C6 witness: the host www.google-analytics.com is a subdomain of the
blocklist entry google-analytics.com, and the exchange is excluded even
with a JSON content type, xhr resource type and a non-trivial body. -/
theorem c6_analytics_domain_always_excluded_witness :
    parseURL "https://www.google-analytics.com/data?q=1" =
      some ⟨"www.google-analytics.com", "/data", "?q=1"⟩ ∧
    ANALYTICS_DOMAINS.any (fun domain =>
        String.mk (lowerChars ("www.google-analytics.com" : String).data) = domain ||
        strEndsWith (String.mk (lowerChars ("www.google-analytics.com" : String).data))
          ("." ++ domain)) = true ∧
    isCoreDataRequest "https://www.google-analytics.com/data?q=1" "application/json"
      "xhr" (some widgetLongBody) = false :=
  ⟨by rfl, by rfl,
    c6_analytics_domain_always_excluded _ _ _ _
      ⟨"www.google-analytics.com", "/data", "?q=1"⟩ (by rfl) (by rfl)⟩

/-! Claims C4, C5, C10: the primary-source decision. -/

/-- An embedded-data value that reaches the API-tally part of
determinePrimarySource: either no embedded data, or Next.js embedded data
whose pageProps test fails (qualifying Next.js data and any Nuxt data
return earlier). -/
def embeddedFallsThrough (ed : Option EmbeddedData) : Bool :=
  match ed with
  | none => true
  | some e =>
    match e.category with
    | .nuxtEmbedded => false
    | .nextjsEmbedded => !nextDataHasPageProps e.data

theorem countCat_cons (c : APICategory) (a : DetectedAPI) (rest : List DetectedAPI) :
    countCat c (a :: rest) = (if a.category = c then 1 else 0) + countCat c rest := by
  by_cases h : a.category = c
  · simp [countCat, List.filter_cons, h, Nat.add_comm]
  · simp [countCat, List.filter_cons, h]

theorem countCat_le_length (c : APICategory) (apis : List DetectedAPI) :
    countCat c apis ≤ apis.length :=
  List.length_filter_le _ _

theorem countCat_total (apis : List DetectedAPI) :
    countCat .jsonApi apis + countCat .graphql apis + countCat .xmlApi apis +
      countCat .htmlApi apis = apis.length := by
  induction apis with
  | nil => rfl
  | cons a rest ih =>
    simp only [countCat_cons, List.length_cons]
    cases h : a.category <;> simp [h] at ih ⊢ <;> omega

theorem maxLoop4_spec (n1 n2 n3 n4 : Nat) :
    (maxLoop [(APICategory.jsonApi, n1), (APICategory.graphql, n2),
        (APICategory.xmlApi, n3), (APICategory.htmlApi, n4)] = (.jsonApi, n1) ∧
      n2 ≤ n1 ∧ n3 ≤ n1 ∧ n4 ≤ n1) ∨
    (maxLoop [(APICategory.jsonApi, n1), (APICategory.graphql, n2),
        (APICategory.xmlApi, n3), (APICategory.htmlApi, n4)] = (.graphql, n2) ∧
      n1 < n2 ∧ n3 ≤ n2 ∧ n4 ≤ n2) ∨
    (maxLoop [(APICategory.jsonApi, n1), (APICategory.graphql, n2),
        (APICategory.xmlApi, n3), (APICategory.htmlApi, n4)] = (.xmlApi, n3) ∧
      n1 < n3 ∧ n2 < n3 ∧ n4 ≤ n3) ∨
    (maxLoop [(APICategory.jsonApi, n1), (APICategory.graphql, n2),
        (APICategory.xmlApi, n3), (APICategory.htmlApi, n4)] = (.htmlApi, n4) ∧
      n1 < n4 ∧ n2 < n4 ∧ n3 < n4) := by
  simp only [maxLoop, List.foldl]
  split_ifs <;> simp_all [Prod.mk.injEq] <;> omega

/-- When the embedded data falls through, neither of the two leading guards
of determinePrimarySource fires. -/
theorem dps_guards_false {ed : Option EmbeddedData}
    (h : embeddedFallsThrough ed = true) :
    nextGuard ed = false ∧ nuxtGuard ed = false := by
  cases ed with
  | none => exact ⟨rfl, rfl⟩
  | some e =>
    simp only [embeddedFallsThrough] at h
    cases hc : e.category <;> rw [hc] at h <;> simp_all [nextGuard, nuxtGuard, hc]

/-- C4: with no qualifying embedded data and at least one graphql-classified
API, determinePrimarySource returns graphql, with high confidence exactly
when the graphql tally exceeds one and medium confidence when it is one. -/
theorem c4_graphql_priority (apis : List DetectedAPI) (ed : Option EmbeddedData)
    (h1 : embeddedFallsThrough ed = true) (h2 : 0 < countCat .graphql apis) :
    determinePrimarySource apis ed =
      (DataSourceCategory.graphql,
        if 1 < countCat .graphql apis then Confidence.high else Confidence.medium) := by
  obtain ⟨hg1, hg2⟩ := dps_guards_false h1
  have hlen : apis.length ≠ 0 := by
    have := countCat_le_length .graphql apis
    omega
  unfold determinePrimarySource
  rw [hg1, hg2]
  simp only [Bool.false_eq_true, if_false]
  rw [if_neg hlen, if_pos h2]

/-- C4 witness: one graphql API and no embedded data give (graphql, medium). -/
theorem c4_graphql_priority_witness :
    embeddedFallsThrough none = true ∧
    0 < countCat .graphql [sampleApi .graphql] ∧
    determinePrimarySource [sampleApi .graphql] none =
      (DataSourceCategory.graphql, Confidence.medium) :=
  ⟨rfl, by decide, by
    have h := c4_graphql_priority [sampleApi .graphql] none rfl (by decide)
    simpa using h⟩

theorem dps_confidence_ne_low (apis : List DetectedAPI) (ed : Option EmbeddedData) :
    (determinePrimarySource apis ed).2 ≠ Confidence.low := by
  have htot := countCat_total apis
  have hspec := maxLoop4_spec (countCat .jsonApi apis) (countCat .graphql apis)
    (countCat .xmlApi apis) (countCat .htmlApi apis)
  simp only [determinePrimarySource]
  split_ifs with hg1 hg2 h0 hgq hc1 hc2 hc3
  · simp
  · simp
  · cases ed <;> simp
  · simp
  · simp
  · simp
  · simp
  · exfalso
    rcases hspec with ⟨hm, ha, hb, hc⟩ | ⟨hm, ha, hb, hc⟩ | ⟨hm, ha, hb, hc⟩ | ⟨hm, ha, hb, hc⟩ <;>
      rw [hm] at hc2 hc3 <;> simp at hc2 hc3 <;> omega

/-- C10 (implicit): analyzePageData only ever reports high or medium
confidence; the low level is unreachable, whatever the oracles, HTML and
exchange list are. -/
theorem c10_confidence_never_low (evalJs xmlToJson : String → Option JValue)
    (html : String) (xhrs : List XHRCapture) (title : Option String) :
    (analyzePageData evalJs xmlToJson html xhrs title).confidence = Confidence.high ∨
    (analyzePageData evalJs xmlToJson html xhrs title).confidence = Confidence.medium := by
  have hkey : (analyzePageData evalJs xmlToJson html xhrs title).confidence =
      (determinePrimarySource (analyzeXHRRequests xmlToJson xhrs)
        (analyzePageData evalJs xmlToJson html xhrs title).embeddedData).2 := rfl
  have h := dps_confidence_ne_low (analyzeXHRRequests xmlToJson xhrs)
    (analyzePageData evalJs xmlToJson html xhrs title).embeddedData
  rw [hkey]
  cases hv : (determinePrimarySource (analyzeXHRRequests xmlToJson xhrs)
      (analyzePageData evalJs xmlToJson html xhrs title).embeddedData).2 with
  | high => exact Or.inl rfl
  | medium => exact Or.inr rfl
  | low => exact absurd hv h

/-- The fixed enumeration order of the API categories named by the claim
(json-api, graphql, xml-api, html-api). -/
def categoryOrderIdx : APICategory → Nat
  | .jsonApi => 0
  | .graphql => 1
  | .xmlApi => 2
  | .htmlApi => 3

/-- C5: with no qualifying embedded data, a non-empty API list and no
graphql entry, determinePrimarySource picks the category with the highest
tally (ties broken by the enumeration order json-api, graphql, xml-api,
html-api) and derives confidence from that tally: high at three or more,
medium at one or more, low otherwise. -/
theorem c5_dominant_category (apis : List DetectedAPI) (ed : Option EmbeddedData)
    (h1 : embeddedFallsThrough ed = true) (h2 : apis ≠ [])
    (h3 : countCat .graphql apis = 0) :
    ∃ c : APICategory,
      determinePrimarySource apis ed =
        (c.toDataSource,
          if 3 ≤ countCat c apis then Confidence.high
          else if 1 ≤ countCat c apis then Confidence.medium else Confidence.low) ∧
      (∀ c2 : APICategory, countCat c2 apis ≤ countCat c apis) ∧
      (∀ c2 : APICategory, countCat c2 apis = countCat c apis →
        categoryOrderIdx c ≤ categoryOrderIdx c2) := by
  obtain ⟨hg1, hg2⟩ := dps_guards_false h1
  have hlen : apis.length ≠ 0 := by
    cases apis with
    | nil => exact absurd rfl h2
    | cons a rest => simp
  have hgq : ¬ 0 < countCat .graphql apis := by omega
  have hspec := maxLoop4_spec (countCat .jsonApi apis) (countCat .graphql apis)
    (countCat .xmlApi apis) (countCat .htmlApi apis)
  simp only [determinePrimarySource, hg1, hg2, Bool.false_eq_true, if_false]
  rw [if_neg hlen, if_neg hgq]
  rcases hspec with ⟨hm, ha, hb, hc⟩ | ⟨hm, ha, hb, hc⟩ | ⟨hm, ha, hb, hc⟩ | ⟨hm, ha, hb, hc⟩
  · refine ⟨.jsonApi, by rw [hm], fun c2 => by cases c2 <;> omega,
      fun c2 hq => by cases c2 <;> simp [categoryOrderIdx]⟩
  · exfalso
    omega
  · refine ⟨.xmlApi, by rw [hm], fun c2 => by cases c2 <;> omega,
      fun c2 hq => by cases c2 <;> simp [categoryOrderIdx] at hq ⊢ <;> omega⟩
  · refine ⟨.htmlApi, by rw [hm], fun c2 => by cases c2 <;> omega,
      fun c2 hq => by cases c2 <;> simp [categoryOrderIdx] at hq ⊢ <;> omega⟩

/-- C5 witness: three json exchanges and one xml exchange with no embedded
data and no graphql entry give primary json-api with high confidence, and
json-api is the dominant category. -/
theorem c5_dominant_category_witness :
    embeddedFallsThrough none = true ∧
    ([sampleApi .jsonApi, sampleApi .jsonApi, sampleApi .jsonApi, sampleApi .xmlApi] ≠
      ([] : List DetectedAPI)) ∧
    countCat .graphql
      [sampleApi .jsonApi, sampleApi .jsonApi, sampleApi .jsonApi, sampleApi .xmlApi] = 0 ∧
    (∃ c : APICategory,
      determinePrimarySource
          [sampleApi .jsonApi, sampleApi .jsonApi, sampleApi .jsonApi, sampleApi .xmlApi]
          none =
        (c.toDataSource,
          if 3 ≤ countCat c [sampleApi .jsonApi, sampleApi .jsonApi, sampleApi .jsonApi,
              sampleApi .xmlApi] then Confidence.high
          else if 1 ≤ countCat c [sampleApi .jsonApi, sampleApi .jsonApi, sampleApi .jsonApi,
              sampleApi .xmlApi] then Confidence.medium else Confidence.low) ∧
      (∀ c2 : APICategory,
        countCat c2 [sampleApi .jsonApi, sampleApi .jsonApi, sampleApi .jsonApi,
            sampleApi .xmlApi] ≤
          countCat c [sampleApi .jsonApi, sampleApi .jsonApi, sampleApi .jsonApi,
            sampleApi .xmlApi]) ∧
      (∀ c2 : APICategory,
        countCat c2 [sampleApi .jsonApi, sampleApi .jsonApi, sampleApi .jsonApi,
            sampleApi .xmlApi] =
          countCat c [sampleApi .jsonApi, sampleApi .jsonApi, sampleApi .jsonApi,
            sampleApi .xmlApi] →
        categoryOrderIdx c ≤ categoryOrderIdx c2)) ∧
    determinePrimarySource
        [sampleApi .jsonApi, sampleApi .jsonApi, sampleApi .jsonApi, sampleApi .xmlApi]
        none =
      (DataSourceCategory.jsonApi, Confidence.high) :=
  ⟨rfl, by simp, by rfl,
    c5_dominant_category
      [sampleApi .jsonApi, sampleApi .jsonApi, sampleApi .jsonApi, sampleApi .xmlApi]
      none rfl (by simp) (by rfl),
    by rfl⟩

/-! Claim C3. -/

theorem jsGet_obj {d : JValue} {k : String} {v : JValue} (h : jsGet d k = some v) :
    ∃ fs, d = JValue.obj fs := by
  cases d <;> first
    | exact ⟨_, rfl⟩
    | simp [jsGet] at h

theorem nextDataHasPageProps_of {d props : JValue} {ppFields : List (String × JValue)}
    (hp : jsGet d "props" = some props)
    (hpp : jsGet props "pageProps" = some (.obj ppFields))
    (hne : ppFields ≠ []) : nextDataHasPageProps d = true := by
  simp only [nextDataHasPageProps, hp, hpp, truthy, jsKeysLength, Bool.true_and,
    decide_eq_true_eq]
  exact List.length_pos.mpr hne

theorem analyzePageData_embedded_next (evalJs xmlToJson : String → Option JValue)
    (html : String) (xhrs : List XHRCapture) (title : Option String) {d : JValue}
    (hnext : extractNextData html = some d) (ht : truthy d = true) :
    (analyzePageData evalJs xmlToJson html xhrs title).embeddedData =
      some ⟨.nextjsEmbedded, d, inferJsonSchema d 3 10⟩ := by
  simp only [analyzePageData, hnext, ht, if_true]

theorem dps_next_qualifying (apis : List DetectedAPI) (e : EmbeddedData)
    (hcat : e.category = .nextjsEmbedded) (hq : nextDataHasPageProps e.data = true) :
    determinePrimarySource apis (some e) = (.nextjsEmbedded, .high) := by
  have hg : nextGuard (some e) = true := by simp [nextGuard, hcat, hq]
  unfold determinePrimarySource
  simp [hg]

/-- C3: whenever the page HTML yields __NEXT_DATA__ embedded data whose
props.pageProps is a non-empty object, analyzePageData resolves the primary
source to nextjs-embedded with high confidence, regardless of the captured
exchanges and of the oracles. -/
theorem c3_next_data_pageprops_wins (evalJs xmlToJson : String → Option JValue)
    (html : String) (xhrs : List XHRCapture) (title : Option String)
    (d props : JValue) (ppFields : List (String × JValue))
    (hnext : extractNextData html = some d)
    (hp : jsGet d "props" = some props)
    (hpp : jsGet props "pageProps" = some (.obj ppFields))
    (hne : ppFields ≠ []) :
    (analyzePageData evalJs xmlToJson html xhrs title).primaryDataSource =
      DataSourceCategory.nextjsEmbedded ∧
    (analyzePageData evalJs xmlToJson html xhrs title).confidence = Confidence.high := by
  obtain ⟨fs, rfl⟩ := jsGet_obj hp
  have ht : truthy (JValue.obj fs) = true := rfl
  have hemb := analyzePageData_embedded_next evalJs xmlToJson html xhrs title hnext ht
  have hq := nextDataHasPageProps_of hp hpp hne
  have hprim : (analyzePageData evalJs xmlToJson html xhrs title).primaryDataSource =
      (determinePrimarySource (analyzeXHRRequests xmlToJson xhrs)
        (analyzePageData evalJs xmlToJson html xhrs title).embeddedData).1 := rfl
  have hconf : (analyzePageData evalJs xmlToJson html xhrs title).confidence =
      (determinePrimarySource (analyzeXHRRequests xmlToJson xhrs)
        (analyzePageData evalJs xmlToJson html xhrs title).embeddedData).2 := rfl
  rw [hprim, hconf, hemb,
    dps_next_qualifying (analyzeXHRRequests xmlToJson xhrs) _ rfl hq]
  exact ⟨rfl, rfl⟩

/-- C3 witness: the concrete page nextDataHtml with JSON body
props.pageProps = (id : 1) resolves to (nextjs-embedded, high), here with
no exchanges and inert oracles. -/
theorem c3_next_data_pageprops_wins_witness :
    extractNextData nextDataHtml =
      some (JValue.obj [("props",
        JValue.obj [("pageProps", JValue.obj [("id", JValue.num 1)])])]) ∧
    jsGet (JValue.obj [("props",
        JValue.obj [("pageProps", JValue.obj [("id", JValue.num 1)])])]) "props" =
      some (JValue.obj [("pageProps", JValue.obj [("id", JValue.num 1)])]) ∧
    jsGet (JValue.obj [("pageProps", JValue.obj [("id", JValue.num 1)])]) "pageProps" =
      some (JValue.obj [("id", JValue.num 1)]) ∧
    ([(("id" : String), JValue.num 1)] ≠ []) ∧
    (analyzePageData (fun _ => none) (fun _ => none) nextDataHtml [] none).primaryDataSource =
      DataSourceCategory.nextjsEmbedded ∧
    (analyzePageData (fun _ => none) (fun _ => none) nextDataHtml [] none).confidence =
      Confidence.high :=
  ⟨by rfl, by rfl, by rfl, by simp,
    (c3_next_data_pageprops_wins (fun _ => none) (fun _ => none) nextDataHtml [] none
      (JValue.obj [("props", JValue.obj [("pageProps", JValue.obj [("id", JValue.num 1)])])])
      (JValue.obj [("pageProps", JValue.obj [("id", JValue.num 1)])])
      [("id", JValue.num 1)] (by rfl) (by rfl) (by rfl) (by simp)).1,
    (c3_next_data_pageprops_wins (fun _ => none) (fun _ => none) nextDataHtml [] none
      (JValue.obj [("props", JValue.obj [("pageProps", JValue.obj [("id", JValue.num 1)])])])
      (JValue.obj [("pageProps", JValue.obj [("id", JValue.num 1)])])
      [("id", JValue.num 1)] (by rfl) (by rfl) (by rfl) (by simp)).2⟩

/-! Claim C7. -/

/-- The URL part of the reclassification condition as the claim states it:
the (lower-cased) URL contains /graphql or /gql. -/
def specGraphQLMarkerInUrl (url : String) : Bool :=
  strContains (String.mk (lowerChars url.data)) "/graphql" ||
    strContains (String.mk (lowerChars url.data)) "/gql"

/-- The body part of the reclassification condition as the claim states it:
the parsed body is an object with a top-level data or errors key. -/
def specTopLevelDataOrErrors (data : JValue) : Bool :=
  match data with
  | .obj fs => hasKey fs "data" || hasKey fs "errors"
  | _ => false

/-- The serialization part of the reclassification condition as the claim
states it: the serialized body contains the literal marker __typename. -/
def specSerializedHasTypename (data : JValue) : Bool :=
  strContains (jsStringify data) "__typename"

/-- The full reclassification condition exactly as claim C7 states it. -/
def claimReclassifyCond (url : String) (data : JValue) : Bool :=
  specGraphQLMarkerInUrl url || specTopLevelDataOrErrors data ||
    specSerializedHasTypename data

/-- A JavaScript value of typeof object other than null: an object or an
array (the first guard of isGraphQLResponse). -/
def jsObjectLike : JValue → Bool
  | .obj _ => true
  | .arr _ => true
  | _ => false

/-- The reclassification condition the code actually applies: as the claim,
except that the serialization test only applies to objects and arrays. -/
def amendedReclassifyCond (url : String) (data : JValue) : Bool :=
  specGraphQLMarkerInUrl url || specTopLevelDataOrErrors data ||
    (jsObjectLike data && specSerializedHasTypename data)

/-- A core-data JSON exchange whose response body is a JSON string literal
containing the __typename marker (63 characters, so non-trivial). -/
def typenameStringExchange : XHRCapture :=
  ⟨⟨"https://api.example.com/items", "GET", [], none, "xhr", 0⟩,
   some ⟨"https://api.example.com/items", 200, "OK", [], some
     "\"lorem ipsum __typename lorem ipsum dolor sit amet consectetur\"",
     "xhr", 0, some "application/json", none⟩⟩

/-- C7 counterexample: the claim says an exchange classified as JSON is
reclassified as GraphQL exactly when (among the other disjuncts) the
serialized body contains the literal marker __typename.  For a JSON string
body containing the marker, the claimed condition holds, yet the code
leaves the exchange at json-api: isGraphQLResponse rejects every non-object
value before it ever serializes the body. -/
theorem c7_typename_string_not_reclassified :
    (analyzeXHRRequests (fun _ => none) [typenameStringExchange]).map
        DetectedAPI.category = [APICategory.jsonApi] ∧
    safeJsonParse "\"lorem ipsum __typename lorem ipsum dolor sit amet consectetur\"" =
      some (.str "lorem ipsum __typename lorem ipsum dolor sit amet consectetur") ∧
    claimReclassifyCond "https://api.example.com/items"
      (.str "lorem ipsum __typename lorem ipsum dolor sit amet consectetur") = true :=
  ⟨by rfl, by rfl, by rfl⟩

theorem isGraphQLResponse_eq_amended (d : JValue) :
    isGraphQLResponse d =
      (specTopLevelDataOrErrors d || (jsObjectLike d && specSerializedHasTypename d)) := by
  cases d <;>
    simp only [isGraphQLResponse, specTopLevelDataOrErrors, jsObjectLike,
      specSerializedHasTypename, Bool.false_and, Bool.true_and, Bool.or_false,
      Bool.false_or] <;>
    first
      | rfl
      | (split <;> simp_all)

theorem amendedReclassifyCond_eq (url : String) (d : JValue) :
    amendedReclassifyCond url d = (isGraphQLEndpoint url || isGraphQLResponse d) := by
  rw [isGraphQLResponse_eq_amended]
  simp only [amendedReclassifyCond, specGraphQLMarkerInUrl, isGraphQLEndpoint,
    Bool.or_assoc]

/-- C7 amended: an exchange surviving the core-data filter with a JSON
content category and a parsed non-null body is classified graphql exactly
when the URL contains /graphql or /gql (case-insensitively), or the parsed
body is an object with a top-level data or errors key, or the parsed body
is of object type (an object or an array) and its serialization contains
the literal marker __typename; otherwise it stays json-api.  (The
difference from the claim: a non-object body whose serialization contains
__typename is not reclassified.) -/
theorem c7_graphql_reclassification_amended
    (xmlToJson : String → Option JValue) (req : CapturedRequest)
    (resp : CapturedResponse) (body : String) (d : JValue)
    (hbody : resp.body = some body) (hne : body ≠ "")
    (hcore : isCoreDataRequest resp.url (resp.contentType.getD "")
      req.resourceType (some body) = true)
    (hcat : getContentCategory (resp.contentType.getD "") = .json)
    (hparse : safeJsonParse body = some d) (hnn : d.isNull = false) :
    (analyzeXHRRequests xmlToJson [⟨req, some resp⟩]).map DetectedAPI.category =
      [if amendedReclassifyCond resp.url d then APICategory.graphql
       else APICategory.jsonApi] := by
  simp only [analyzeXHRRequests, analyzeOneXHR, hbody, hne, hcore, hcat, hparse, hnn,
    Bool.not_true, Bool.false_eq_true, if_false, if_neg (by simp [hne] : ¬ body = "")]
  rw [amendedReclassifyCond_eq]
  split <;> simp [mkDetectedAPI]

/-- The request of a GraphQL-looking exchange. -/
def gqlReq : CapturedRequest :=
  ⟨"https://api.example.com/items", "POST", [], none, "xhr", 0⟩

/-- A 53-character JSON body with a top-level data key. -/
def gqlBodyStr : String :=
  "\x7b\"data\":\x7b\"items\":[1,2,3,4,5,6,7,8,9,10,11,12,13,14]\x7d\x7d"

/-- The response of the GraphQL-looking exchange. -/
def gqlResp : CapturedResponse :=
  ⟨"https://api.example.com/items", 200, "OK", [], some gqlBodyStr, "xhr", 0,
   some "application/json", none⟩

/-- The parsed value of gqlBodyStr. -/
def gqlVal : JValue :=
  .obj [("data", .obj [("items", .arr [.num 1, .num 2, .num 3, .num 4, .num 5,
    .num 6, .num 7, .num 8, .num 9, .num 10, .num 11, .num 12, .num 13, .num 14])])]

/-- C7 witness: the concrete exchange with a top-level data key in its JSON
body satisfies every hypothesis and is classified graphql. -/
theorem c7_graphql_reclassification_amended_witness :
    gqlResp.body = some gqlBodyStr ∧
    gqlBodyStr ≠ "" ∧
    isCoreDataRequest gqlResp.url (gqlResp.contentType.getD "") gqlReq.resourceType
      (some gqlBodyStr) = true ∧
    getContentCategory (gqlResp.contentType.getD "") = .json ∧
    safeJsonParse gqlBodyStr = some gqlVal ∧
    gqlVal.isNull = false ∧
    (analyzeXHRRequests (fun _ => none) [⟨gqlReq, some gqlResp⟩]).map
      DetectedAPI.category = [APICategory.graphql] :=
  ⟨rfl, by decide, by rfl, by rfl, by rfl, by rfl, by
    have h := c7_graphql_reclassification_amended (fun _ => none) gqlReq gqlResp
      gqlBodyStr gqlVal rfl (by decide) (by rfl) (by rfl) (by rfl) (by rfl)
    exact h.trans (by rfl)⟩

/-! Claim C8. -/

/-- The branch-type set of a schema as claim C8 reads it: the de-duplicated
type names of the type-union branches when the schema is a union, and the
schema's own type names otherwise. -/
def branchTypes (s : JSONSchema) : List String :=
  match s.oneOf with
  | some l => (l.flatMap typeNamesOf).dedup
  | none => typeNamesOf s

/-- Every schema produced by inference is a single-type schema without a
type union at its top level. -/
theorem inferJsonSchema_shape (v : JValue) (me md : Nat) :
    (inferJsonSchema v me md).oneOf = none ∧
    ∃ t : String, (inferJsonSchema v me md).type = some (.one t) := by
  rw [inferJsonSchema.eq_def]
  by_cases h : md = 0
  · rw [if_pos h]
    exact ⟨rfl, "object", rfl⟩
  · rw [if_neg h]
    cases v with
    | null => exact ⟨rfl, "null", rfl⟩
    | bool b => exact ⟨rfl, "boolean", rfl⟩
    | num q => exact ⟨rfl, _, rfl⟩
    | str s => exact ⟨rfl, "string", rfl⟩
    | arr l =>
      simp only []
      split
      · exact ⟨rfl, "array", rfl⟩
      · exact ⟨rfl, "array", rfl⟩
    | obj fs => exact ⟨rfl, "object", rfl⟩

theorem branchTypes_single {a : JSONSchema} {ta : String}
    (hao : a.oneOf = none) (hat : a.type = some (.one ta)) :
    branchTypes a = [ta] := by
  simp [branchTypes, hao, typeNamesOf, hat]

theorem addSchemaStep_fresh {st : List String × List JSONSchema} {s : JSONSchema}
    {ts : String} (hts : s.type = some (.one ts)) (hfresh : ts ∉ st.1) :
    addSchemaStep st s = (st.1 ++ [ts], st.2 ++ [s]) := by
  simp only [addSchemaStep, typeNamesOf, hts, List.foldl]
  rw [if_neg (by simpa using hfresh)]

/-- The different-types branch of mergeSchemas on two single-type schemas:
a two-branch type union. -/
theorem mergeSchemas_of_ne {a b : JSONSchema} {ta tb : String}
    (hao : a.oneOf = none) (hat : a.type = some (.one ta))
    (hbo : b.oneOf = none) (hbt : b.type = some (.one tb)) (h : ta ≠ tb) :
    mergeSchemas a b = .mk none none none none none none (some [a, b]) := by
  have hfe : typeFieldEq a.type b.type = false := by
    rw [hat, hbt]
    simp [typeFieldEq, h]
  have h1 : addSchemaStep ([], []) a = ([ta], [a]) := by
    rw [addSchemaStep_fresh hat (by simp)]
    rfl
  have hfresh : tb ∉ ([ta] : List String) := by
    simp only [List.mem_singleton]
    exact fun hh => h hh.symm
  have h2 : addSchemaStep ([ta], [a]) b = ([ta, tb], [a, b]) := by
    rw [addSchemaStep_fresh hbt hfresh]
    rfl
  rw [mergeSchemas]
  rw [if_neg (by simp [hfe])]
  simp only [hao, hbo, h1, h2]

/-- The equal-types branch of mergeSchemas on two single-type schemas whose
shared type is not "object": the left operand is returned. -/
theorem mergeSchemas_of_eq_nonobject {a b : JSONSchema} {ta : String}
    (hat : a.type = some (.one ta)) (hbt : b.type = some (.one ta))
    (hobj : ta ≠ "object") :
    mergeSchemas a b = a := by
  have hfe : typeFieldEq a.type b.type = true := by
    rw [hat, hbt]
    simp [typeFieldEq]
  rw [mergeSchemas]
  rw [if_pos (by simp [hfe])]
  rw [if_neg (by simp [hat, hobj])]

/-- The equal-types branch of mergeSchemas for two object schemas: either
the recursive property merge (an object schema) or, when a property map is
absent, the left operand. -/
theorem mergeSchemas_of_eq_object {a b : JSONSchema}
    (hat : a.type = some (.one "object")) (hbt : b.type = some (.one "object")) :
    (∃ props, mergeSchemas a b =
        .mk (some (.one "object")) (some props) none none (some true) none none ∧
      a.properties.isSome ∧ b.properties.isSome) ∨
    (mergeSchemas a b = a ∧ (a.properties.isSome = false ∨ b.properties.isSome = false)) := by
  have hfe : typeFieldEq a.type b.type = true := by
    rw [hat, hbt]
    simp [typeFieldEq]
  rw [mergeSchemas]
  rw [if_pos (by simp [hfe]), if_pos hat]
  cases hpa : a.properties with
  | none =>
    cases hpb : b.properties with
    | none => exact Or.inr ⟨rfl, Or.inl rfl⟩
    | some bp => exact Or.inr ⟨rfl, Or.inl rfl⟩
  | some ap =>
    cases hpb : b.properties with
    | none => exact Or.inr ⟨rfl, Or.inr rfl⟩
    | some bp =>
      exact Or.inl ⟨_, rfl, rfl, rfl⟩

/-- C8: for schemas produced by inference, merging in either order collects
the same set of branch types (the single type of the result, or the
de-duplicated types of the type-union branches). -/
theorem c8_merge_commutative_in_branch_types (va vb : JValue) (me1 md1 me2 md2 : Nat)
    (t : String) :
    (t ∈ branchTypes (mergeSchemas (inferJsonSchema va me1 md1)
        (inferJsonSchema vb me2 md2)) ↔
      t ∈ branchTypes (mergeSchemas (inferJsonSchema vb me2 md2)
        (inferJsonSchema va me1 md1))) := by
  obtain ⟨hao, ta, hat⟩ := inferJsonSchema_shape va me1 md1
  obtain ⟨hbo, tb, hbt⟩ := inferJsonSchema_shape vb me2 md2
  set a := inferJsonSchema va me1 md1 with ha
  set b := inferJsonSchema vb me2 md2 with hb
  by_cases h : ta = tb
  · subst h
    by_cases hobj : ta = "object"
    · subst hobj
      rcases mergeSchemas_of_eq_object hat hbt with ⟨props, hm, hpa, hpb⟩ | ⟨hm, hp⟩
      · rcases mergeSchemas_of_eq_object hbt hat with ⟨props2, hm2, _, _⟩ | ⟨hm2, hp2⟩
        · rw [hm, hm2]
          simp [branchTypes, typeNamesOf, JSONSchema.oneOf, JSONSchema.type]
        · rcases hp2 with hx | hx <;> simp_all
      · rcases mergeSchemas_of_eq_object hbt hat with ⟨props2, hm2, hpb2, hpa2⟩ | ⟨hm2, hp2⟩
        · rcases hp with hx | hx <;> simp_all
        · rw [hm, hm2, branchTypes_single hao hat, branchTypes_single hbo hbt]
    · rw [mergeSchemas_of_eq_nonobject hat hbt hobj,
        mergeSchemas_of_eq_nonobject hbt hat hobj,
        branchTypes_single hao hat, branchTypes_single hbo hbt]
  · rw [mergeSchemas_of_ne hao hat hbo hbt h,
      mergeSchemas_of_ne hbo hbt hao hat (fun hh => h hh.symm)]
    simp only [branchTypes, JSONSchema.oneOf, List.mem_dedup, List.flatMap_cons,
      List.flatMap_nil, List.append_nil, List.mem_append, typeNamesOf, hat, hbt]
    simp [or_comm]

end XhrFetcher
